import Mathlib

/-!
Shallow embedding of the Government-Website-Backend listing/auth core.

Strings from the TypeScript source are modelled as `List Char`. JavaScript
`String.prototype.toLowerCase` is modelled by `Char.toLower` (ASCII case
mapping; every claim below only depends on ASCII behaviour, and all
characters outside the kept class `[a-z0-9\s-]` are stripped by `slugify`
regardless of how they lower-case). JavaScript numbers reaching the
pagination code are modelled as integers together with explicit `NaN` and
infinity markers (`JSNum`), which is exactly the distinction the code
makes via `Number.isFinite`.
-/

namespace GovBackend

/-- Characters a-z, as classified by the regex class `a-z`. -/
def isAsciiLower (c : Char) : Bool := 'a' ≤ c && c ≤ 'z'

/-- Characters 0-9, as classified by the regex class `0-9`. -/
def isDigitCh (c : Char) : Bool := '0' ≤ c && c ≤ '9'

/-- Whitespace as matched by the JavaScript regex class `\s` and trimmed by
`String.prototype.trim`: ASCII whitespace plus the Unicode space
separators, line/paragraph separators and the BOM. -/
def isSpaceCh (c : Char) : Bool :=
  c = ' ' || c = '\t' || c = '\n' || c = '\r' || c = '\u000b' || c = '\u000c' ||
  c = '\u00a0' || c = '\u1680' || ('\u2000' ≤ c && c ≤ '\u200a') ||
  c = '\u2028' || c = '\u2029' || c = '\u202f' || c = '\u205f' || c = '\ufeff' ||
  c = '\u3000'

/-- The character class `[a-z0-9\s-]` kept by `slugify`'s first `replace`. -/
def isSlugKeep (c : Char) : Bool :=
  isAsciiLower c || isDigitCh c || isSpaceCh c || c = '-'

/-- JavaScript `String.prototype.trim`: drop whitespace from both ends. -/
def wsTrim (l : List Char) : List Char :=
  ((l.dropWhile isSpaceCh).reverse.dropWhile isSpaceCh).reverse

/-- `replace(/\s+/g, "-")`: each maximal whitespace run becomes one hyphen.
The boolean argument records whether the previous character was whitespace
(i.e. whether we are inside a run that already emitted its hyphen). -/
def collapseWsAux : Bool → List Char → List Char
  | _, [] => []
  | prev, c :: rest =>
    if isSpaceCh c then
      if prev then collapseWsAux true rest else '-' :: collapseWsAux true rest
    else c :: collapseWsAux false rest

/-- The final `replace` with global pattern `-+`: each maximal hyphen run
becomes one hyphen. -/
def collapseHyAux : Bool → List Char → List Char
  | _, [] => []
  | prev, c :: rest =>
    if c = '-' then
      if prev then collapseHyAux true rest else '-' :: collapseHyAux true rest
    else c :: collapseHyAux false rest

/-- `slugify` from `routes/jobs.ts` (identical copy `slugifyInput` in the
admin routes): lowercase, strip characters outside `[a-z0-9\s-]`, trim
whitespace at the ends, replace whitespace runs by single hyphens, collapse
hyphen runs. -/
def slugify (input : List Char) : List Char :=
  collapseHyAux false
    (collapseWsAux false (wsTrim ((input.map Char.toLower).filter isSlugKeep)))

/-- Little-endian decimal digits of `n`, with explicit fuel so that the
definition is structural (any fuel ≥ `n` computes all digits). -/
def natDigitsAux : Nat → Nat → List Char
  | 0, _ => []
  | _ + 1, 0 => []
  | fuel + 1, n + 1 => Nat.digitChar ((n + 1) % 10) :: natDigitsAux fuel ((n + 1) / 10)

/-- Decimal rendering of a natural number, as JavaScript template-literal
interpolation renders a non-negative integer. -/
def natStr (n : Nat) : List Char :=
  if n = 0 then ['0'] else (natDigitsAux n n).reverse

/-- The `j`-th slug candidate tried by `ensureUniqueSlug`'s loop: the
normalized base itself first, then `base-2`, `base-3`, .... -/
def candidate (base : List Char) (j : Nat) : List Char :=
  if j ≤ 1 then base else base ++ '-' :: natStr j

/-- The `while (await Job.exists({ slug }))` probe loop of
`ensureUniqueSlug`, with explicit fuel. `probeSlug store base fuel j`
returns the first candidate with index ≥ `j` that is not in `store`,
provided the fuel covers the search; `ensureUniqueSlug` passes fuel
`store.length + 1`, which always suffices because the candidates are
pairwise distinct, so the bounded recursion computes exactly what the
unbounded source loop computes. -/
def probeSlug (store : List (List Char)) (base : List Char) : Nat → Nat → List Char
  | 0, j => candidate base j
  | fuel + 1, j =>
    if candidate base j ∈ store then probeSlug store base fuel (j + 1)
    else candidate base j

/-- `ensureUniqueSlug` from `routes/jobs.ts` (identical copy in the admin
routes). `store` is the set of slugs present in the Listing Store; `now`
is `Date.now()`. -/
def ensureUniqueSlug (store : List (List Char)) (title : List Char) (now : Nat) : List Char :=
  let normalized := slugify title
  if normalized = [] then "job-".data ++ natStr now
  else probeSlug store normalized (store.length + 1) 1

example : slugify "Staff Nurse Recruitment".data = "staff-nurse-recruitment".data := by decide

example : slugify "-a-".data = "-a-".data := by decide

example : ensureUniqueSlug ["staff-nurse".data] "Staff  Nurse!".data 0
    = "staff-nurse-2".data := by decide

/-- No two adjacent characters of the list are both hyphens. -/
def noDoubleHyphen : List Char → Bool
  | [] => true
  | [_] => true
  | a :: b :: rest => (!(a == '-' && b == '-')) && noDoubleHyphen (b :: rest)

lemma mem_collapseWsAux {c : Char} :
    ∀ (prev : Bool) (l : List Char), c ∈ collapseWsAux prev l →
      c = '-' ∨ (c ∈ l ∧ isSpaceCh c = false) := by
  intro prev l
  induction l generalizing prev with
  | nil => intro h; simp [collapseWsAux] at h
  | cons d rest ih =>
    intro h
    by_cases hd : isSpaceCh d
    · by_cases hp : prev
      · simp only [collapseWsAux, hd, hp, if_true] at h
        rcases ih true h with h1 | ⟨h2, h3⟩
        · exact Or.inl h1
        · exact Or.inr ⟨List.mem_cons_of_mem _ h2, h3⟩
      · simp only [collapseWsAux, hd, hp, if_true, if_false] at h
        rcases List.mem_cons.mp h with h1 | h1
        · exact Or.inl h1
        · rcases ih true h1 with h2 | ⟨h3, h4⟩
          · exact Or.inl h2
          · exact Or.inr ⟨List.mem_cons_of_mem _ h3, h4⟩
    · simp only [collapseWsAux, hd, if_false] at h
      rcases List.mem_cons.mp h with h1 | h1
      · subst h1
        exact Or.inr ⟨List.mem_cons_self _ _, by simpa using hd⟩
      · rcases ih false h1 with h2 | ⟨h3, h4⟩
        · exact Or.inl h2
        · exact Or.inr ⟨List.mem_cons_of_mem _ h3, h4⟩

lemma mem_collapseHyAux {c : Char} :
    ∀ (prev : Bool) (l : List Char), c ∈ collapseHyAux prev l → c ∈ l := by
  intro prev l
  induction l generalizing prev with
  | nil => intro h; simp [collapseHyAux] at h
  | cons d rest ih =>
    intro h
    by_cases hd : d = '-'
    · by_cases hp : prev
      · simp only [collapseHyAux, hd, hp, if_true] at h
        exact List.mem_cons_of_mem _ (ih true h)
      · simp only [collapseHyAux, hd, hp, if_true, if_false] at h
        rcases List.mem_cons.mp h with h1 | h1
        · exact h1 ▸ hd ▸ List.mem_cons_self _ _
        · exact List.mem_cons_of_mem _ (ih true h1)
    · simp only [collapseHyAux, hd, if_false] at h
      rcases List.mem_cons.mp h with h1 | h1
      · exact h1 ▸ List.mem_cons_self _ _
      · exact List.mem_cons_of_mem _ (ih false h1)

lemma mem_of_mem_wsTrim {c : Char} {l : List Char} (h : c ∈ wsTrim l) : c ∈ l := by
  unfold wsTrim at h
  rw [List.mem_reverse] at h
  have h2 : c ∈ (l.dropWhile isSpaceCh).reverse :=
    (List.dropWhile_sublist _).subset h
  rw [List.mem_reverse] at h2
  exact (List.dropWhile_sublist _).subset h2

lemma collapseHyAux_true_head : ∀ l : List Char, (collapseHyAux true l).head? ≠ some '-' := by
  intro l
  induction l with
  | nil => simp [collapseHyAux]
  | cons d rest ih =>
    by_cases hd : d = '-'
    · simpa only [collapseHyAux, hd, if_true] using ih
    · simp [collapseHyAux, hd]

lemma noDoubleHyphen_cons_of {x : Char} {l : List Char}
    (h1 : noDoubleHyphen l = true) (h2 : x = '-' → l.head? ≠ some '-') :
    noDoubleHyphen (x :: l) = true := by
  cases l with
  | nil => simp [noDoubleHyphen]
  | cons y t =>
    simp only [noDoubleHyphen, Bool.and_eq_true, Bool.not_eq_true'] at h1 ⊢
    refine ⟨?_, h1⟩
    by_cases hx : x = '-'
    · have := h2 hx
      simp only [List.head?_cons, ne_eq, Option.some.injEq] at this
      simp [hx, this]
    · simp [hx]

lemma noDoubleHyphen_collapseHyAux :
    ∀ (l : List Char) (prev : Bool), noDoubleHyphen (collapseHyAux prev l) = true := by
  intro l
  induction l with
  | nil => intro prev; simp [collapseHyAux, noDoubleHyphen]
  | cons d rest ih =>
    intro prev
    by_cases hd : d = '-'
    · by_cases hp : prev
      · simpa only [collapseHyAux, hd, hp, if_true] using ih true
      · simp only [collapseHyAux, hd, hp, if_true, if_false]
        exact noDoubleHyphen_cons_of (ih true) (fun _ => collapseHyAux_true_head rest)
    · simp only [collapseHyAux, hd, if_false]
      refine noDoubleHyphen_cons_of (ih false) (fun hx => absurd hx hd)

/-- C1 (amended): `slugify` lowercases, strips every character outside
`[a-z0-9\s-]`, collapses internal whitespace runs to single hyphens, and
collapses repeated hyphens to one, so every character of the result is a
lowercase ASCII letter, a digit, or a hyphen and no two adjacent hyphens
remain; it trims whitespace at both edges but does NOT trim hyphens at the
edges (a hyphen already at an edge of the title survives).  If the
normalized result is empty, the assigned slug is the time-based placeholder
`job-<timestamp>`, which is non-empty. -/
theorem slugify_normalization (s : List Char) (store : List (List Char)) (t : Nat) :
    (∀ c ∈ slugify s, isAsciiLower c = true ∨ isDigitCh c = true ∨ c = '-') ∧
    noDoubleHyphen (slugify s) = true ∧
    (slugify s = [] →
      ensureUniqueSlug store s t = "job-".data ++ natStr t ∧
      ensureUniqueSlug store s t ≠ []) := by
  refine ⟨?_, ?_, ?_⟩
  · intro c hc
    have h1 := mem_collapseHyAux _ _ hc
    rcases mem_collapseWsAux _ _ h1 with h2 | ⟨h3, h4⟩
    · exact Or.inr (Or.inr h2)
    · have h5 := mem_of_mem_wsTrim h3
      have h6 := (List.mem_filter.mp h5).2
      simp only [isSlugKeep, Bool.or_eq_true] at h6
      rcases h6 with ((h | h) | h) | h
      · exact Or.inl h
      · exact Or.inr (Or.inl h)
      · rw [h4] at h; exact absurd h (by simp)
      · exact Or.inr (Or.inr (by simpa using h))
  · exact noDoubleHyphen_collapseHyAux _ _
  · intro hempty
    constructor
    · simp only [ensureUniqueSlug, hempty, if_true]
    · simp only [ensureUniqueSlug, hempty, if_true]
      intro hnil
      rcases List.append_eq_nil.mp hnil with ⟨h1, _⟩
      exact absurd h1 (by decide)

/-- C1 counterexample: the claim as stated says hyphens are trimmed at both
edges, but creating a listing titled `-a-` assigns the slug `-a-`, which
begins and ends with a hyphen. -/
theorem slugify_keeps_edge_hyphens :
    ensureUniqueSlug [] "-a-".data 0 = "-a-".data ∧
    (ensureUniqueSlug [] "-a-".data 0).head? = some '-' ∧
    (ensureUniqueSlug [] "-a-".data 0).getLast? = some '-' := by decide

/-- C1 witness: a title of only punctuation normalizes to the empty string
and receives the time-based placeholder slug. -/
theorem slugify_normalization_witness :
    slugify "!!!".data = [] ∧ ensureUniqueSlug [] "!!!".data 5 = "job-".data ++ natStr 5 :=
  ⟨by decide, ((slugify_normalization "!!!".data [] 5).2.2 (by decide)).1⟩

lemma natDigitsAux_eq_digits :
    ∀ (fuel n : Nat), n ≤ fuel → natDigitsAux fuel n = (Nat.digits 10 n).map Nat.digitChar := by
  intro fuel
  induction fuel with
  | zero =>
    intro n hn
    interval_cases n
    simp [natDigitsAux]
  | succ f ih =>
    intro n hn
    cases n with
    | zero => simp [natDigitsAux]
    | succ m =>
      rw [Nat.digits_def' (by norm_num : (1 : ℕ) < 10) (Nat.succ_pos m)]
      simp only [natDigitsAux, List.map_cons]
      congr 1
      exact ih _ (by
        have := Nat.div_lt_self (Nat.succ_pos m) (by norm_num : (1 : ℕ) < 10)
        omega)

lemma digitChar_inj_lt : ∀ x < 10, ∀ y < 10, Nat.digitChar x = Nat.digitChar y → x = y := by decide

lemma mapDigitChar_inj :
    ∀ (l1 l2 : List Nat), (∀ d ∈ l1, d < 10) → (∀ d ∈ l2, d < 10) →
      l1.map Nat.digitChar = l2.map Nat.digitChar → l1 = l2 := by
  intro l1
  induction l1 with
  | nil => intro l2 _ _ h; cases l2 <;> simp_all
  | cons d t ih =>
    intro l2 h1 h2 h
    cases l2 with
    | nil => simp at h
    | cons e s =>
      simp only [List.map_cons, List.cons.injEq] at h
      have hd : d = e :=
        digitChar_inj_lt d (h1 d (List.mem_cons_self _ _)) e (h2 e (List.mem_cons_self _ _)) h.1
      have ht : t = s :=
        ih s (fun x hx => h1 x (List.mem_cons_of_mem _ hx))
          (fun x hx => h2 x (List.mem_cons_of_mem _ hx)) h.2
      rw [hd, ht]

lemma natStr_inj {a b : Nat} (ha : 1 ≤ a) (hb : 1 ≤ b) (h : natStr a = natStr b) : a = b := by
  unfold natStr at h
  rw [if_neg (by omega), if_neg (by omega)] at h
  rw [natDigitsAux_eq_digits a a le_rfl, natDigitsAux_eq_digits b b le_rfl] at h
  have h2 := List.reverse_injective h
  have h3 := mapDigitChar_inj _ _
    (fun d hd => Nat.digits_lt_base (by norm_num) hd)
    (fun d hd => Nat.digits_lt_base (by norm_num) hd) h2
  exact Nat.digits.injective 10 h3

lemma candidate_inj {n : List Char} {j k : Nat} (hj : 1 ≤ j) (hk : 1 ≤ k)
    (h : candidate n j = candidate n k) : j = k := by
  unfold candidate at h
  by_cases h1 : j ≤ 1 <;> by_cases h2 : k ≤ 1
  · omega
  · rw [if_pos h1, if_neg h2] at h
    have := congrArg List.length h
    simp [List.length_append] at this
  · rw [if_neg h1, if_pos h2] at h
    have := congrArg List.length h
    simp [List.length_append] at this
  · rw [if_neg h1, if_neg h2] at h
    have h3 := List.append_cancel_left h
    simp only [List.cons.injEq, true_and] at h3
    exact natStr_inj (by omega) (by omega) h3

/-- The Listing Store slug set after `k` sequential creations from the same
non-empty normalized base `n`: `n`, `n-2`, ..., `n-k`. -/
def firstCandidates (n : List Char) (k : Nat) : List (List Char) :=
  (List.range k).map (fun i => candidate n (i + 1))

lemma mem_firstCandidates {n : List Char} {k m : Nat} (hm : 1 ≤ m) :
    candidate n m ∈ firstCandidates n k ↔ m ≤ k := by
  unfold firstCandidates
  simp only [List.mem_map, List.mem_range]
  constructor
  · rintro ⟨i, hik, hei⟩
    have := candidate_inj (by omega) hm hei
    omega
  · intro hmk
    exact ⟨m - 1, by omega, by rw [Nat.sub_add_cancel hm]⟩

lemma probeSlug_firstCandidates {n : List Char} {k : Nat} :
    ∀ (fuel j : Nat), 1 ≤ j → j ≤ k + 1 → k + 2 ≤ j + fuel →
      probeSlug (firstCandidates n k) n fuel j = candidate n (k + 1) := by
  intro fuel
  induction fuel with
  | zero => intro j h1 h2 h3; omega
  | succ f ih =>
    intro j h1 h2 h3
    by_cases hjk : j ≤ k
    · have hmem : candidate n j ∈ firstCandidates n k := (mem_firstCandidates h1).mpr hjk
      simp only [probeSlug]
      rw [if_pos hmem]
      exact ih (j + 1) (by omega) (by omega) (by omega)
    · have hj : j = k + 1 := by omega
      subst hj
      have hmem : candidate n (k + 1) ∉ firstCandidates n k := by
        rw [mem_firstCandidates (by omega)]
        omega
      simp only [probeSlug]
      rw [if_neg hmem]

/-- Sequential listing creations: fold `ensureUniqueSlug` over the titles,
inserting each assigned slug into the Listing Store before the next
creation (no interleaved writes).  Returns the assigned slugs in creation
order. -/
def createAll (store : List (List Char)) : List (List Char) → List (List Char)
  | [] => []
  | t :: ts =>
    let s := ensureUniqueSlug store t 0
    s :: createAll (store ++ [s]) ts

lemma firstCandidates_snoc (n : List Char) (k : Nat) :
    firstCandidates n k ++ [candidate n (k + 1)] = firstCandidates n (k + 1) := by
  unfold firstCandidates
  rw [List.range_succ, List.map_append]
  simp

lemma createAll_firstCandidates {n : List Char} (hn : n ≠ []) :
    ∀ (ts : List (List Char)) (k : Nat), (∀ t ∈ ts, slugify t = n) →
      createAll (firstCandidates n k) ts
        = (List.range ts.length).map (fun i => candidate n (k + i + 1)) := by
  intro ts
  induction ts with
  | nil => intro k _; simp [createAll]
  | cons t ts ih =>
    intro k hall
    have hslug : slugify t = n := hall t (List.mem_cons_self _ _)
    have hfirst : ensureUniqueSlug (firstCandidates n k) t 0 = candidate n (k + 1) := by
      unfold ensureUniqueSlug
      rw [hslug, if_neg hn]
      have hlen : (firstCandidates n k).length = k := by
        simp [firstCandidates]
      rw [hlen]
      exact probeSlug_firstCandidates (k + 1) 1 le_rfl (by omega) (by omega)
    simp only [createAll, hfirst, firstCandidates_snoc]
    rw [ih (k + 1) (fun x hx => hall x (List.mem_cons_of_mem _ hx))]
    rw [List.length_cons, List.range_succ_eq_map, List.map_cons, List.map_map]
    refine congrArg₂ List.cons ?_ ?_
    · show candidate n (k + 1) = candidate n (k + 0 + 1)
      norm_num
    · apply List.map_congr_left
      intro i _
      show candidate n (k + 1 + i + 1) = candidate n (k + (i + 1) + 1)
      congr 1
      omega

/-- C2: starting from an empty Listing Store, every sequence of listing
creations whose titles all normalize to the same non-empty base slug `n`
(with no interleaved writes) is assigned exactly the slugs `n`, `n-2`,
`n-3`, ... in creation order — no suffix index skipped and no slug
reused, since each probe starts from the base and increments until a slug
not present in the store is found. -/
theorem ensureUniqueSlug_sequential (titles : List (List Char)) (n : List Char)
    (hn : n ≠ []) (hall : ∀ t ∈ titles, slugify t = n) :
    createAll [] titles = (List.range titles.length).map (fun i => candidate n (i + 1)) := by
  have h0 : firstCandidates n 0 = [] := by simp [firstCandidates]
  have h := createAll_firstCandidates hn titles 0 hall
  rw [h0] at h
  rw [h]
  apply List.map_congr_left
  intro i _
  congr 1
  omega

/-- C2 witness: three titles normalizing to `staff-nurse` receive the slugs
`staff-nurse`, `staff-nurse-2`, `staff-nurse-3` in order. -/
theorem ensureUniqueSlug_sequential_witness :
    createAll [] ["Staff Nurse".data, "Staff Nurse!".data, "staff  nurse".data]
      = ["staff-nurse".data, "staff-nurse-2".data, "staff-nurse-3".data] := by
  have h := ensureUniqueSlug_sequential
    ["Staff Nurse".data, "Staff Nurse!".data, "staff  nurse".data]
    "staff-nurse".data (by decide) (by decide)
  rw [h]
  decide

/-- A JavaScript number as produced by `Number(...)` on a query parameter:
either a finite value (modelled as an integer) or one of the non-finite
values `NaN`, `Infinity`, `-Infinity`, the distinction tested by
`Number.isFinite`. -/
inductive JSNum where
  | nan
  | posInf
  | negInf
  | fin (v : Int)
deriving DecidableEq, Repr

/-- `Number.isFinite`. -/
def jsIsFinite : JSNum → Bool
  | .fin _ => true
  | _ => false

/-- `Number(req.query.page || "1")`: an absent (or empty) parameter parses
the default string `"1"`. -/
def pageNum (page : Option JSNum) : JSNum := page.getD (.fin 1)

/-- `Number(req.query.limit || "20")`. -/
def limitNum (limit : Option JSNum) : JSNum := limit.getD (.fin 20)

/-- `const pageSafe = Number.isFinite(page) ? Math.max(page, 1) : 1`. -/
def pageSafe (page : Option JSNum) : Int :=
  match pageNum page with
  | .fin v => max v 1
  | _ => 1

/-- `const limitSafe = Math.min(Math.max(Number.isFinite(limit) ? limit : 20, 1), 50)`. -/
def limitSafe (limit : Option JSNum) : Int :=
  min (max (match limitNum limit with | .fin v => v | _ => 20) 1) 50

/-- `const skip = (pageSafe - 1) * limitSafe`. -/
def skipOf (page limit : Option JSNum) : Int := (pageSafe page - 1) * limitSafe limit

/-- C3: for every GET /jobs request the effective page is `max(page, 1)`
for finite page values and 1 for missing or non-finite ones; the effective
limit lies in `[1, 50]`, resolving to the default 20 when missing or
non-finite, to 50 for `limit=1000` and to 1 for `limit=0`; and the skip
offset is `(effectivePage - 1) * effectiveLimit`. -/
theorem page_limit_clamping (page limit : Option JSNum) :
    1 ≤ pageSafe page ∧
    (∀ v, page = some (.fin v) → pageSafe page = max v 1) ∧
    (page = none ∨ jsIsFinite (pageNum page) = false → pageSafe page = 1) ∧
    1 ≤ limitSafe limit ∧ limitSafe limit ≤ 50 ∧
    (limit = none ∨ jsIsFinite (limitNum limit) = false → limitSafe limit = 20) ∧
    (limit = some (.fin 1000) → limitSafe limit = 50) ∧
    (limit = some (.fin 0) → limitSafe limit = 1) ∧
    skipOf page limit = (pageSafe page - 1) * limitSafe limit := by
  refine ⟨?_, ?_, ?_, ?_, ?_, ?_, ?_, ?_, rfl⟩
  · unfold pageSafe
    rcases pageNum page with _ | _ | _ | v <;> simp [le_max_right]
  · intro v hv
    simp [pageSafe, pageNum, hv]
  · rintro (h | h)
    · simp [pageSafe, pageNum, h]
    · unfold pageSafe
      rcases hp : pageNum page with _ | _ | _ | v
      · rfl
      · rfl
      · rfl
      · rw [hp] at h
        simp [jsIsFinite] at h
  · unfold limitSafe
    rcases limitNum limit with _ | _ | _ | v <;> simp [le_max_right]
  · unfold limitSafe
    rcases limitNum limit with _ | _ | _ | v <;> simp [min_le_right]
  · rintro (h | h)
    · simp [limitSafe, limitNum, h]
    · unfold limitSafe
      rcases hl : limitNum limit with _ | _ | _ | v
      · norm_num
      · norm_num
      · norm_num
      · rw [hl] at h
        simp [jsIsFinite] at h
  · intro h
    simp [limitSafe, limitNum, h]
  · intro h
    simp [limitSafe, limitNum, h]

/-- C3 witness: a `NaN` page resolves to 1, an absent limit to 20,
`limit=1000` to 50 and `limit=0` to 1. -/
theorem page_limit_clamping_witness :
    pageSafe (some .nan) = 1 ∧ limitSafe none = 20 ∧
    limitSafe (some (.fin 1000)) = 50 ∧ limitSafe (some (.fin 0)) = 1 :=
  ⟨(page_limit_clamping (some .nan) none).2.2.1 (Or.inr (by decide)),
   (page_limit_clamping none none).2.2.2.2.2.1 (Or.inl rfl),
   (page_limit_clamping none (some (.fin 1000))).2.2.2.2.2.2.1 rfl,
   (page_limit_clamping none (some (.fin 0))).2.2.2.2.2.2.2.1 rfl⟩

/-- The characters escaped by `escapeRegex`'s character class — exactly the
characters that are meaningful to the JavaScript pattern engine. -/
def regexMeta : List Char :=
  ['.', '*', '+', '?', '^', '$', Char.ofNat 123, Char.ofNat 125,
   '(', ')', '|', '[', ']', '\\']

def isRegexMeta (c : Char) : Bool := c ∈ regexMeta

/-- `escapeRegex` from `routes/jobs.ts`: prefix every pattern-engine
metacharacter with a backslash. -/
def escapeRegex : List Char → List Char
  | [] => []
  | c :: rest => (if isRegexMeta c then ['\\', c] else [c]) ++ escapeRegex rest

/-- Literal denotation of a regex pattern: `denot p = some s` iff the
pattern `p` consists only of literal characters and backslash-escaped
metacharacters and denotes the literal string `s`; `denot p = none` when
`p` contains an unescaped metacharacter (an operator or a syntax error
such as a dangling escape or unbalanced bracket), i.e. when the pattern
is not a pure literal. -/
def denot : List Char → Option (List Char)
  | [] => some []
  | ['\\'] => none
  | '\\' :: c :: rest =>
    if isRegexMeta c then (denot rest).map (fun s => c :: s) else none
  | c :: rest =>
    if isRegexMeta c then none else (denot rest).map (fun s => c :: s)

/-- Whether `needle` occurs at the start of `hay`. -/
def startsWith : List Char → List Char → Bool
  | [], _ => true
  | _ :: _, [] => false
  | a :: as, b :: bs => (a == b) && startsWith as bs

/-- Whether `needle` occurs contiguously anywhere inside `hay`. -/
def hasSubstr (needle : List Char) : List Char → Bool
  | [] => needle.isEmpty
  | c :: rest => startsWith needle (c :: rest) || hasSubstr needle rest

/-- Case-insensitive literal substring test, the semantics of a literal
pattern under the `i` option. -/
def containsCI (needle hay : List Char) : Bool :=
  hasSubstr (needle.map Char.toLower) (hay.map Char.toLower)

/-- Evaluate a `$regex`/`$options: "i"` condition against a field value:
`none` when the pattern is not a pure literal (the model's stand-in for a
pattern the engine would interpret or reject), otherwise the
case-insensitive substring result. -/
def evalRegexCI (pat target : List Char) : Option Bool :=
  (denot pat).map (fun lit => containsCI lit target)

/-- A listing record, restricted to the fields the query engine reads. -/
structure Job where
  jobType : List Char
  title : List Char
  department : List Char
  state : List Char
  qualification : List Char
  slug : List Char
  isExpired : Bool
  createdAt : Nat
deriving DecidableEq, Repr

/-- The request parameters of GET /jobs, post HTTP parsing: each text
parameter is `some raw` when supplied as a string and `none` otherwise. -/
structure QueryParams where
  jobType : Option (List Char)
  q : Option (List Char)
  state : Option (List Char)
  qualification : Option (List Char)
  department : Option (List Char)
  includeExpired : Option (List Char)
  page : Option JSNum
  limit : Option JSNum
deriving DecidableEq, Repr

/-- `String(req.query.type || "job")` (a present non-empty value is kept
verbatim, even when it is not one of the three known types). -/
def effType (t : Option (List Char)) : List Char :=
  match t with
  | none => "job".data
  | some s => if s = [] then "job".data else s

/-- `String(req.query.includeExpired || "") === "1"`. -/
def includeExpiredFlag (p : QueryParams) : Bool :=
  match p.includeExpired with
  | some s => s == ['1']
  | none => false

/-- A trimmed text parameter, kept only when truthy (non-empty after
trimming), as in `if (state) filter.state = state`. -/
def presentField (o : Option (List Char)) : Option (List Char) :=
  match o with
  | none => none
  | some s => if wsTrim s = [] then none else some (wsTrim s)

/-- The Mongo filter constructed by the GET /jobs handler. -/
structure Filter where
  jobType : List Char
  isExpired : Option Bool
  state : Option (List Char)
  qualification : Option (List Char)
  department : Option (List Char)
  qPat : Option (List Char)
deriving DecidableEq, Repr

/-- Lines 82-112 of the jobs router: `filter = { type }`, `isExpired: false`
unless `includeExpired === "1"`, equality filters for non-blank
`state`/`qualification`/`department`, and an `$or` of four `$regex`
conditions over the escaped non-blank search string. -/
def buildFilter (p : QueryParams) : Filter :=
  { jobType := effType p.jobType
    isExpired := if includeExpiredFlag p then none else some false
    state := presentField p.state
    qualification := presentField p.qualification
    department := presentField p.department
    qPat := (presentField p.q).map escapeRegex }

/-- Evaluation of the `$or` clause over `title`, `department`, `state`,
`qualification` (absent pattern: clause omitted, matches everything). -/
def qOrMatches (qPat : Option (List Char)) (j : Job) : Bool :=
  match qPat with
  | none => true
  | some pat =>
    (evalRegexCI pat j.title).getD false || (evalRegexCI pat j.department).getD false ||
    (evalRegexCI pat j.state).getD false || (evalRegexCI pat j.qualification).getD false

/-- Whether a stored record matches the constructed filter (the document
store's evaluation of the query). -/
def matchesFilter (f : Filter) (j : Job) : Bool :=
  (j.jobType == f.jobType) &&
  (match f.isExpired with | none => true | some b => j.isExpired == b) &&
  (match f.state with | none => true | some s => j.state == s) &&
  (match f.qualification with | none => true | some s => j.qualification == s) &&
  (match f.department with | none => true | some s => j.department == s) &&
  qOrMatches f.qPat j

/-- Newest-created-first ordering (`sort({ createdAt: -1 })`). -/
def jobGE (a b : Job) : Prop := b.createdAt ≤ a.createdAt

instance : DecidableRel jobGE := fun _ _ => Nat.decLe _ _

instance : IsTotal Job jobGE := ⟨fun a b => (Nat.le_total b.createdAt a.createdAt)⟩

instance : IsTrans Job jobGE := ⟨fun _ _ _ h1 h2 => le_trans h2 h1⟩

/-- The document store's sort by `createdAt` descending. -/
def sortDesc (l : List Job) : List Job := List.insertionSort jobGE l

/-- The JSON body returned by GET /jobs. -/
structure QueryResult where
  items : List Job
  total : Nat
  page : Int
  limit : Int
  totalPages : Nat
deriving Repr

/-- The GET /jobs handler (lines 81-126 of the jobs router) against a
Listing Store `store`: build the filter, sort matching records newest
first, apply skip/limit, and report `total` as the count of matching
records ignoring pagination with `totalPages = max(ceil(total / limitSafe), 1)`. -/
def getJobs (store : List Job) (p : QueryParams) : QueryResult :=
  let f := buildFilter p
  let pg := pageSafe p.page
  let lim := limitSafe p.limit
  let skip := ((pg - 1) * lim).toNat
  let matched := store.filter (matchesFilter f)
  let total := matched.length
  { items := ((sortDesc matched).drop skip).take lim.toNat
    total := total
    page := pg
    limit := lim
    totalPages := max ((total + lim.toNat - 1) / lim.toNat) 1 }

lemma one_le_limitSafe (limit : Option JSNum) : 1 ≤ limitSafe limit := by
  unfold limitSafe
  rcases limitNum limit with _ | _ | _ | v <;> simp [le_max_right]

/-- Natural ceiling division `(t + l - 1) / l` agrees with the exact
rational ceiling `Math.ceil(t / l)` for positive `l`. -/
lemma ceil_div_eq (t l : Nat) (hl : 0 < l) :
    (((t + l - 1) / l : Nat) : ℤ) = ⌈(t : ℚ) / (l : ℚ)⌉ := by
  have hlQ : (0 : ℚ) < l := by exact_mod_cast hl
  set q := (t + l - 1) / l with hq
  have hub : q * l + 1 ≤ t + l := by
    have h := Nat.div_mul_le_self (t + l - 1) l
    rw [← hq] at h
    omega
  have hlb : t ≤ q * l := by
    by_contra hcon
    push_neg at hcon
    have h2 : q + 1 ≤ (t + l - 1) / l := by
      rw [Nat.le_div_iff_mul_le hl]
      have h3 : (q + 1) * l = q * l + l := by ring
      omega
    omega
  rw [eq_comm, Int.ceil_eq_iff]
  push_cast
  constructor
  · rw [lt_div_iff₀ hlQ]
    have hubQ : (q : ℚ) * l + 1 ≤ t + l := by exact_mod_cast hub
    nlinarith
  · rw [div_le_iff₀ hlQ]
    exact_mod_cast hlb


/-- C4: for every GET /jobs response, `totalPages` equals
`max(ceil(total / limit), 1)` where `total` is the count of records
matching the filter ignoring pagination, the returned items list has
length at most the effective limit, and the items are ordered
newest-created-first. -/
theorem jobs_pagination_shape (store : List Job) (p : QueryParams) :
    (((getJobs store p).totalPages : ℤ)
        = max ⌈((getJobs store p).total : ℚ) / ((getJobs store p).limit : ℚ)⌉ 1) ∧
    (getJobs store p).items.length ≤ ((getJobs store p).limit).toNat ∧
    List.Pairwise jobGE (getJobs store p).items ∧
    (getJobs store p).total = (store.filter (matchesFilter (buildFilter p))).length := by
  have hlim : 1 ≤ limitSafe p.limit := one_le_limitSafe p.limit
  refine ⟨?_, ?_, ?_, rfl⟩
  · show ((max (((store.filter (matchesFilter (buildFilter p))).length
        + (limitSafe p.limit).toNat - 1) / (limitSafe p.limit).toNat) 1 : ℕ) : ℤ)
      = max ⌈(((store.filter (matchesFilter (buildFilter p))).length : ℚ)
          / ((limitSafe p.limit : ℤ) : ℚ))⌉ 1
    rw [Nat.cast_max]
    rw [ceil_div_eq _ _ (by omega)]
    have hcast : (((limitSafe p.limit).toNat : ℚ)) = ((limitSafe p.limit : ℤ) : ℚ) := by
      have h := Int.toNat_of_nonneg (show (0 : ℤ) ≤ limitSafe p.limit by omega)
      exact_mod_cast congrArg (fun z : ℤ => (z : ℚ)) h
    rw [hcast]
    norm_num
  · show (((sortDesc (store.filter (matchesFilter (buildFilter p)))).drop
        ((pageSafe p.page - 1) * limitSafe p.limit).toNat).take
          (limitSafe p.limit).toNat).length ≤ (limitSafe p.limit).toNat
    rw [List.length_take]
    exact min_le_left _ _
  · show List.Pairwise jobGE
      (((sortDesc (store.filter (matchesFilter (buildFilter p)))).drop
        ((pageSafe p.page - 1) * limitSafe p.limit).toNat).take
          (limitSafe p.limit).toNat)
    have hsorted : List.Pairwise jobGE (sortDesc (store.filter (matchesFilter (buildFilter p)))) :=
      List.sorted_insertionSort jobGE _
    exact hsorted.sublist ((List.take_sublist _ _).trans (List.drop_sublist _ _))

lemma includeExpiredFlag_iff (p : QueryParams) :
    includeExpiredFlag p = true ↔ p.includeExpired = some ['1'] := by
  cases h : p.includeExpired <;> simp [includeExpiredFlag, h]

lemma mem_items_mem_filter {store : List Job} {p : QueryParams} {j : Job}
    (h : j ∈ (getJobs store p).items) :
    j ∈ store.filter (matchesFilter (buildFilter p)) := by
  have h1 : j ∈ sortDesc (store.filter (matchesFilter (buildFilter p))) :=
    ((List.take_sublist _ _).trans (List.drop_sublist _ _)).subset h
  unfold sortDesc at h1
  exact (List.mem_insertionSort jobGE).mp h1

/-- C5: when `includeExpired` is absent or anything other than the string
`1`, the constructed filter pins `isExpired = false` and no returned item
is expired; when `includeExpired=1`, the `isExpired` constraint is
omitted and matching is independent of a record's `isExpired` flag, so
expired items may appear. -/
theorem includeExpired_gate (store : List Job) (p : QueryParams) :
    (p.includeExpired ≠ some ['1'] →
      (buildFilter p).isExpired = some false ∧
      ∀ j ∈ (getJobs store p).items, j.isExpired = false) ∧
    (p.includeExpired = some ['1'] →
      (buildFilter p).isExpired = none ∧
      ∀ (j : Job) (b : Bool),
        matchesFilter (buildFilter p) j
          = matchesFilter (buildFilter p) { j with isExpired := b }) := by
  constructor
  · intro hne
    have hflag : includeExpiredFlag p = false := by
      rcases h : includeExpiredFlag p with _ | _
      · rfl
      · exact absurd ((includeExpiredFlag_iff p).mp h) hne
    have hfe : (buildFilter p).isExpired = some false := by
      simp [buildFilter, hflag]
    refine ⟨hfe, ?_⟩
    intro j hj
    have h1 := List.mem_filter.mp (mem_items_mem_filter hj)
    have h2 := h1.2
    unfold matchesFilter at h2
    rw [hfe] at h2
    simp only [Bool.and_eq_true, beq_iff_eq] at h2
    exact h2.1.1.1.1.2
  · intro heq
    have hflag : includeExpiredFlag p = true := (includeExpiredFlag_iff p).mpr heq
    have hfe : (buildFilter p).isExpired = none := by
      simp [buildFilter, hflag]
    refine ⟨hfe, ?_⟩
    intro j b
    unfold matchesFilter qOrMatches
    rw [hfe]

/-- C5 witness: with `includeExpired` absent no expired record is
returned, and with `includeExpired=1` the `isExpired` constraint is
dropped from the filter. -/
theorem includeExpired_gate_witness :
    (∀ j ∈ (getJobs
        [{ jobType := "job".data, title := "t".data, department := "d".data,
           state := "s".data, qualification := "q".data, slug := "t".data,
           isExpired := true, createdAt := 0 }]
        { jobType := none, q := none, state := none, qualification := none,
          department := none, includeExpired := none, page := none, limit := none }).items,
      j.isExpired = false) ∧
    (buildFilter
        { jobType := none, q := none, state := none, qualification := none,
          department := none, includeExpired := some ['1'], page := none,
          limit := none }).isExpired = none :=
  ⟨(includeExpired_gate _ _).1 (by decide) |>.2,
   ((includeExpired_gate
      ([] : List Job)
      { jobType := none, q := none, state := none, qualification := none,
        department := none, includeExpired := some ['1'], page := none,
        limit := none }).2 rfl).1⟩

lemma denot_escapeRegex (s : List Char) : denot (escapeRegex s) = some s := by
  induction s with
  | nil => rfl
  | cons c rest ih =>
    by_cases hc : isRegexMeta c
    · rw [show escapeRegex (c :: rest) = '\\' :: c :: escapeRegex rest from by
        simp [escapeRegex, hc]]
      simp [denot, hc, ih]
    · have hcb : c ≠ '\\' := by
        intro h
        rw [h] at hc
        exact absurd (by decide : isRegexMeta '\\' = true) (by simpa using hc)
      rw [show escapeRegex (c :: rest) = c :: escapeRegex rest from by
        simp [escapeRegex, hc]]
      simp [denot, hcb, hc, ih]

/-- C6: the escaped search string is a syntactically valid pattern that
denotes exactly the literal search string (so the pattern-syntax-error
branch is unreachable), under the `i` option it matches a field iff the
raw search string is a case-insensitive substring of it, the `$or` clause
spans exactly title/department/state/qualification, and the filter built
for a non-blank `q` carries the escaped trimmed search string. -/
theorem q_literal_search (s : List Char) (j : Job) (p : QueryParams) :
    denot (escapeRegex s) = some s ∧
    (∀ t : List Char, evalRegexCI (escapeRegex s) t = some (containsCI s t)) ∧
    qOrMatches (some (escapeRegex s)) j
      = (containsCI s j.title || containsCI s j.department ||
         containsCI s j.state || containsCI s j.qualification) ∧
    (∀ qs, p.q = some qs → wsTrim qs ≠ [] →
      (buildFilter p).qPat = some (escapeRegex (wsTrim qs))) := by
  refine ⟨denot_escapeRegex s, ?_, ?_, ?_⟩
  · intro t
    simp [evalRegexCI, denot_escapeRegex]
  · simp [qOrMatches, evalRegexCI, denot_escapeRegex, Bool.or_assoc]
  · intro qs hqs hne
    simp [buildFilter, presentField, hqs, hne]

/-- C6 witness: the search string `c++` is escaped into a valid literal
pattern for `c++` and produces a literal substring match. -/
theorem q_literal_search_witness :
    denot (escapeRegex "c++".data) = some "c++".data ∧
    (buildFilter
        { jobType := none, q := some "c++".data, state := none,
          qualification := none, department := none, includeExpired := none,
          page := none, limit := none }).qPat = some (escapeRegex "c++".data) := by
  refine ⟨(q_literal_search "c++".data
      { jobType := "job".data, title := "t".data, department := "d".data,
        state := "s".data, qualification := "q".data, slug := "t".data,
        isExpired := false, createdAt := 0 }
      { jobType := none, q := some "c++".data, state := none,
        qualification := none, department := none, includeExpired := none,
        page := none, limit := none }).1, ?_⟩
  have h := (q_literal_search "c++".data
      { jobType := "job".data, title := "t".data, department := "d".data,
        state := "s".data, qualification := "q".data, slug := "t".data,
        isExpired := false, createdAt := 0 }
      { jobType := none, q := some "c++".data, state := none,
        qualification := none, department := none, includeExpired := none,
        page := none, limit := none }).2.2.2 "c++".data rfl (by decide)
  rw [h]
  decide


/-- The two roles of the system. -/
inductive Role where
  | user
  | admin
deriving DecidableEq, Repr

/-- Session claims carried by a verified token (`AdminRequest["auth"]`). -/
structure Claims where
  sub : List Char
  name : Option (List Char)
  email : List Char
  role : Role
deriving DecidableEq, Repr

/-- The distinct ways `verifyAuthToken` can fail.  `verifyAuthToken` itself
lives in the repository's `auth.ts` helper (not under `src/`); the gate in
`middleware/requireAdmin.ts` treats every failure through one `catch`, so
it is modelled as an abstract verifier returning `Except`. -/
inductive VerifyError where
  | expired
  | malformed
  | badSignature
deriving DecidableEq, Repr

structure HttpResponse where
  status : Nat
  body : List Char
deriving DecidableEq, Repr

/-- Outcome of the access-control middleware: either a halted response or
proceeding to the handler with the verified claims attached. -/
inductive GateOutcome where
  | halt (resp : HttpResponse)
  | proceed (auth : Claims)
deriving DecidableEq, Repr

/-- `requireAdmin` from `middleware/requireAdmin.ts`: 401 `Unauthorized`
when no token is extracted, 401 `Unauthorized` when verification throws
(every failure is caught by the same `catch`), 403 `Forbidden` when the
verified role is not `admin`, otherwise attach the claims and continue. -/
def requireAdmin (token : Option (List Char))
    (verify : List Char → Except VerifyError Claims) : GateOutcome :=
  match token with
  | none => .halt ⟨401, "Unauthorized".data⟩
  | some t =>
    match verify t with
    | .error _ => .halt ⟨401, "Unauthorized".data⟩
    | .ok payload =>
      if payload.role = Role.admin then .proceed payload
      else .halt ⟨403, "Forbidden".data⟩

/-- C7: the admin gate returns 401 when no token can be extracted, returns
a byte-identical 401 when verification fails for any reason (expired and
malformed tokens are indistinguishable to the caller), returns 403 when
verification succeeds with a non-admin role, and otherwise attaches the
verified claims and proceeds. -/
theorem requireAdmin_gate (verify v1 v2 : List Char → Except VerifyError Claims) :
    requireAdmin none verify = .halt ⟨401, "Unauthorized".data⟩ ∧
    (∀ t e, verify t = .error e →
      requireAdmin (some t) verify = .halt ⟨401, "Unauthorized".data⟩) ∧
    (∀ t1 t2 e1 e2, v1 t1 = .error e1 → v2 t2 = .error e2 →
      requireAdmin (some t1) v1 = requireAdmin (some t2) v2) ∧
    (∀ t c, verify t = .ok c → c.role ≠ Role.admin →
      requireAdmin (some t) verify = .halt ⟨403, "Forbidden".data⟩) ∧
    (∀ t c, verify t = .ok c → c.role = Role.admin →
      requireAdmin (some t) verify = .proceed c) := by
  refine ⟨rfl, ?_, ?_, ?_, ?_⟩
  · intro t e he
    simp only [requireAdmin, he]
  · intro t1 t2 e1 e2 h1 h2
    simp only [requireAdmin, h1, h2]
  · intro t c hc hrole
    simp only [requireAdmin, hc]
    simp [hrole]
  · intro t c hc hrole
    simp only [requireAdmin, hc]
    simp [hrole]

/-- C7 witness: an expired token and a malformed token halt with the same
401 response, and an authenticated non-admin is halted with 403. -/
theorem requireAdmin_gate_witness :
    requireAdmin (some "t1".data) (fun _ => .error .expired)
      = requireAdmin (some "t2".data) (fun _ => .error .malformed) ∧
    requireAdmin (some "t".data)
        (fun _ => .ok ⟨"1".data, none, "u@e.x".data, Role.user⟩)
      = .halt ⟨403, "Forbidden".data⟩ :=
  ⟨(requireAdmin_gate (fun _ => .error .expired) (fun _ => .error .expired)
      (fun _ => .error .malformed)).2.2.1 "t1".data "t2".data .expired .malformed rfl rfl,
   (requireAdmin_gate (fun _ => .ok ⟨"1".data, none, "u@e.x".data, Role.user⟩)
      (fun _ => .error .expired) (fun _ => .error .expired)).2.2.2.1
     "t".data ⟨"1".data, none, "u@e.x".data, Role.user⟩ rfl (by decide)⟩

/-- A stored user record (the mongoose `User` model). -/
structure User where
  id : Nat
  name : List Char
  email : List Char
  password : List Char
  role : Role
deriving DecidableEq, Repr

/-- The POST /login handler from `routes/auth.ts`, after schema
validation.  `verifyPw` is the password hasher's verification (the
`auth.ts` helper, abstract here); on success a token for the user's
claims is issued and shipped in the cookie, modelled by returning the
signed claims. -/
def login (verifyPw : List Char → List Char → Bool) (store : List User)
    (email password : List Char) : HttpResponse × Option Claims :=
  match store.find? (fun u => u.email == email.map Char.toLower) with
  | none => (⟨401, "Invalid email or password".data⟩, none)
  | some u =>
    if verifyPw password u.password then
      (⟨200, "ok".data⟩,
       some ⟨natStr u.id, if u.name = [] then none else some u.name, u.email, u.role⟩)
    else (⟨401, "Invalid email or password".data⟩, none)

/-- C8: a login attempt with an unknown email and a login attempt with a
known email but failing password verification produce identical 401
responses (no user enumeration). -/
theorem login_no_user_enumeration (verifyPw : List Char → List Char → Bool)
    (store : List User) (e1 p1 e2 p2 : List Char) (u : User)
    (h1 : store.find? (fun v => v.email == e1.map Char.toLower) = none)
    (h2 : store.find? (fun v => v.email == e2.map Char.toLower) = some u)
    (h3 : verifyPw p2 u.password = false) :
    login verifyPw store e1 p1 = login verifyPw store e2 p2 ∧
    login verifyPw store e1 p1 = (⟨401, "Invalid email or password".data⟩, none) := by
  unfold login
  rw [h1, h2]
  simp [h3]

/-- C8 witness: unknown email vs wrong password against a one-user store. -/
theorem login_no_user_enumeration_witness :
    login (fun _ _ => false) [⟨0, "A".data, "a@b.cd".data, "H".data, Role.user⟩]
        "x@y.zw".data "pw1".data
      = login (fun _ _ => false) [⟨0, "A".data, "a@b.cd".data, "H".data, Role.user⟩]
        "a@b.cd".data "pw2".data :=
  (login_no_user_enumeration (fun _ _ => false)
    [⟨0, "A".data, "a@b.cd".data, "H".data, Role.user⟩]
    "x@y.zw".data "pw1".data "a@b.cd".data "pw2".data
    ⟨0, "A".data, "a@b.cd".data, "H".data, Role.user⟩
    (by decide) (by decide) rfl).1

/-- The Credential Store's insert, which enforces the unique index on
`email`: a duplicate insert fails with the store's duplicate-key error
code 11000 instead of corrupting data. -/
def createUser (store : List User) (u : User) : Except Nat (List User) :=
  if u.email ∈ store.map User.email then Except.error 11000
  else Except.ok (store ++ [u])

/-- The POST /register handler from `routes/auth.ts`, after schema
validation: optimistic existence check on the lowercased email (409 when
found), then insert with trimmed name, lowercased email, hashed password
and `role: "user"`; a duplicate-key (11000) failure from the store also
yields 409, any other store failure 500. -/
def register (hashPw : List Char → List Char) (store : List User)
    (name email password : List Char) : HttpResponse × List User :=
  if store.any (fun u => u.email == email.map Char.toLower) then
    (⟨409, "Email already registered".data⟩, store)
  else
    match createUser store
        ⟨store.length, wsTrim name, email.map Char.toLower, hashPw password, Role.user⟩ with
    | .error code =>
      if code = 11000 then (⟨409, "Email already registered".data⟩, store)
      else (⟨500, "Registration failed".data⟩, store)
    | .ok store2 => (⟨201, "ok".data⟩, store2)

/-- C9: registering an email that (after lowercasing) already belongs to a
stored user fails with 409 Conflict — via the optimistic check or the
store's duplicate-key code 11000 — leaving the store unchanged; a
successful registration appends the user with lowercased email and
role `user`, leaving all previous records in place. -/
theorem register_conflict_behaviour (hashPw : List Char → List Char)
    (store : List User) (n e pw : List Char) :
    (e.map Char.toLower ∈ store.map User.email →
      register hashPw store n e pw = (⟨409, "Email already registered".data⟩, store)) ∧
    (e.map Char.toLower ∉ store.map User.email →
      (register hashPw store n e pw).1.status = 201 ∧
      (register hashPw store n e pw).2
        = store ++ [⟨store.length, wsTrim n, e.map Char.toLower, hashPw pw, Role.user⟩]) := by
  have hany : (store.any (fun u => u.email == e.map Char.toLower) = true)
      ↔ e.map Char.toLower ∈ store.map User.email := by
    simp [List.any_eq_true, List.mem_map]
  constructor
  · intro hmem
    unfold register
    rw [if_pos (hany.mpr hmem)]
  · intro hmem
    unfold register
    rw [if_neg (fun h => hmem (hany.mp h))]
    unfold createUser
    rw [if_neg hmem]
    exact ⟨rfl, rfl⟩

/-- C9 witness: a second registration with the same email in different
case yields 409 and leaves the store unchanged; a fresh email is stored
lowercased with role `user`. -/
theorem register_conflict_behaviour_witness :
    register (fun h => h) [⟨0, "A".data, "a@b.cd".data, "H".data, Role.user⟩]
        "B".data "A@B.cd".data "password1".data
      = (⟨409, "Email already registered".data⟩,
         [⟨0, "A".data, "a@b.cd".data, "H".data, Role.user⟩]) ∧
    (register (fun h => h) [] "B".data "New@B.cd".data "password1".data).2
      = [⟨0, "B".data, "new@b.cd".data, "password1".data, Role.user⟩] := by
  constructor
  · exact (register_conflict_behaviour (fun h => h)
      [⟨0, "A".data, "a@b.cd".data, "H".data, Role.user⟩]
      "B".data "A@B.cd".data "password1".data).1 (by decide)
  · rw [(register_conflict_behaviour (fun h => h) []
      "B".data "New@B.cd".data "password1".data).2 (by decide) |>.2]
    decide

/-- The validated POST /jobs body (`jobInputSchema`).  The zod schema
declares no `isExpired` field — unknown keys are stripped by `safeParse` —
so the parsed input cannot carry an expiry flag, which this structure
mirrors by having no such field. -/
structure JobInput where
  jobType : List Char
  title : List Char
  department : List Char
  state : List Char
  qualification : List Char
  eligibility : Option (List Char)
  ageLimit : Option (List Char)
  vacancies : Option (List Char)
  salary : Option (List Char)
  fees : Option (List Char)
  startDate : Option (List Char)
  lastDate : Option (List Char)
  selectionProcess : Option (List Char)
  applyLink : List Char
  notificationPDF : Option (List Char)
  sourceName : List Char
  sourceUrl : List Char
deriving DecidableEq, Repr

/-- The record handed to `Job.create`: the parsed fields spread first,
then `isExpired: false` set unconditionally. -/
def createJobDoc (d : JobInput) (slug : List Char) (now : Nat) : Job :=
  { jobType := d.jobType, title := d.title, department := d.department,
    state := d.state, qualification := d.qualification, slug := slug,
    isExpired := false, createdAt := now }

/-- The POST /jobs create of `routes/jobs.ts` (public-admin route), after
validation and the admin gate: assign a unique slug, then store the
document. -/
def createJobHandler (store : List Job) (d : JobInput) (now : Nat) : List Job :=
  let slug := ensureUniqueSlug (store.map Job.slug) d.title now
  store ++ [createJobDoc d slug now]

/-- The POST /admin/jobs create of `routes/admin.ts`, a byte-for-byte copy
of the public-admin route's create. -/
def adminCreateJobHandler (store : List Job) (d : JobInput) (now : Nat) : List Job :=
  let slug := ensureUniqueSlug (store.map Job.slug) d.title now
  store ++ [createJobDoc d slug now]

/-- C10: every record stored by either create route has
`isExpired = false` regardless of the request body: the validated input
carries no expiry flag and the create call sets `isExpired` to `false`
unconditionally. -/
theorem created_listing_never_expired (store : List Job) (d : JobInput) (now : Nat) :
    (∀ j ∈ createJobHandler store d now, j ∈ store ∨ j.isExpired = false) ∧
    (∀ j ∈ adminCreateJobHandler store d now, j ∈ store ∨ j.isExpired = false) ∧
    (∀ slug t, (createJobDoc d slug t).isExpired = false) := by
  refine ⟨?_, ?_, fun _ _ => rfl⟩
  all_goals
    intro j hj
    rcases List.mem_append.mp hj with h | h
    · exact Or.inl h
    · rcases List.mem_singleton.mp h with rfl
      exact Or.inr rfl

/-- C10 witness: a creation into an empty store yields one record with
`isExpired = false`. -/
theorem created_listing_never_expired_witness :
    ∀ j ∈ createJobHandler []
      ⟨"job".data, "Clerk".data, "Dept".data, "Kerala".data, "10th".data,
        none, none, none, none, none, none, none, none,
        "https://x.y".data, none, "src".data, "https://s.u".data⟩ 0,
      j.isExpired = false := by
  intro j hj
  rcases (created_listing_never_expired []
      ⟨"job".data, "Clerk".data, "Dept".data, "Kerala".data, "10th".data,
        none, none, none, none, none, none, none, none,
        "https://x.y".data, none, "src".data, "https://s.u".data⟩ 0).1 j hj with h | h
  · exact absurd h (List.not_mem_nil j)
  · exact h

end GovBackend
